import Mathlib

/-!
Shallow embedding of `src/score.js` (ECL-Challenge): a line-oriented
score/record file parser, validator and top-N ranker, plus the CLI
boundary glue of `main`.

Strings are modelled as `List Char`.  JavaScript numbers that the program
uses as integers (`parseInt` results, scores, the count argument) are
modelled as `Int`.  The file-system read of `parseDataFile` is abstracted
by handing the file contents to the function directly; `process.exit`
driven failures are modelled as `Except` errors carrying the error kind.
-/

/-- The whitespace characters removed by `String.prototype.trim` and
skipped by `parseInt` (ASCII portion; the repository's inputs are ASCII). -/
def isJsWs (c : Char) : Bool :=
  c == ' ' || c == '\t' || c == '\n' || c == '\r' || c == '\x0b' || c == '\x0c'

/-- `str.trim()` on a `List Char`. -/
def trimList (s : List Char) : List Char :=
  ((s.dropWhile isJsWs).reverse.dropWhile isJsWs).reverse

/-- `str.indexOf(c)`: index of the first occurrence of `c`, `-1` if absent. -/
def jsIndexOf (c : Char) : List Char → Int
  | [] => -1
  | x :: xs =>
    if x = c then 0
    else
      let r := jsIndexOf c xs
      if r = -1 then -1 else r + 1

/-- `str.substring(a, b)`: both arguments are clamped to `[0, length]`
and swapped when out of order. -/
def jsSubstring (s : List Char) (a b : Int) : List Char :=
  let len : Int := s.length
  let a' := min (max a 0) len
  let b' := min (max b 0) len
  let lo := min a' b'
  let hi := max a' b'
  (s.take hi.toNat).drop lo.toNat

/-- `arr.slice(0, count)`: a negative end counts from the end of the
array, a nonnegative end is clamped to the length. -/
def jsSliceTo {α : Type} (l : List α) (count : Int) : List α :=
  let len : Int := l.length
  let e := if count < 0 then max (len + count) 0 else min count len
  l.take e.toNat

/-- Numeric value of a digit character in any radix up to 16 (0 for
characters that are not hexadecimal digits). -/
def hexDigitVal (c : Char) : Nat :=
  if c.isDigit then c.toNat - 48
  else if 'a' ≤ c ∧ c ≤ 'f' then c.toNat - 87
  else if 'A' ≤ c ∧ c ≤ 'F' then c.toNat - 55
  else 0

/-- Value of a digit string interpreted in the given radix. -/
def foldDigits (radix : Nat) (s : List Char) : Nat :=
  s.foldl (fun a c => radix * a + hexDigitVal c) 0

/-- Value of a decimal digit string. -/
def digitsToNat (s : List Char) : Nat :=
  foldDigits 10 s

/-- Leading optional sign of a numeric token, as consumed by `parseInt`. -/
def splitSign (t : List Char) : Bool × List Char :=
  match t with
  | [] => (false, [])
  | c :: r =>
    if c = '-' then (true, r)
    else if c = '+' then (false, r)
    else (false, c :: r)

/-- With no explicit radix, `parseInt` switches to base 16 on a `0x`/`0X`
prefix and otherwise uses base 10. -/
def splitRadix : List Char → Nat × List Char
  | [] => (10, [])
  | [c] => (10, [c])
  | c0 :: c1 :: r =>
    if c0 = '0' ∧ (c1 = 'x' ∨ c1 = 'X') then (16, r) else (10, c0 :: c1 :: r)

/-- Digit test for the radix chosen by `splitRadix`. -/
def isRadixDigit (radix : Nat) (c : Char) : Bool :=
  if radix = 16 then
    c.isDigit || ('a' ≤ c && c ≤ 'f') || ('A' ≤ c && c ≤ 'F')
  else c.isDigit

/-- `parseInt(s, 10)` (used on score tokens): skip whitespace, take an
optional sign, then the longest prefix of decimal digits; `none` models
`NaN` (no digit found). -/
def jsParseInt10 (s : List Char) : Option Int :=
  let t := s.dropWhile isJsWs
  let sg := splitSign t
  let ds := sg.2.takeWhile Char.isDigit
  if ds.isEmpty then none
  else some (if sg.1 then -(digitsToNat ds : Int) else (digitsToNat ds : Int))

/-- `parseInt(s)` with no radix argument (used on the count argument):
as `parseInt(s, 10)` but honouring a hexadecimal `0x` prefix. -/
def jsParseIntNoRadix (s : List Char) : Option Int :=
  let t := s.dropWhile isJsWs
  let sg := splitSign t
  let rd := splitRadix sg.2
  let ds := rd.2.takeWhile (isRadixDigit rd.1)
  if ds.isEmpty then none
  else some (if sg.1 then -(foldDigits rd.1 ds : Int) else (foldDigits rd.1 ds : Int))

/-- JSON values as produced by `JSON.parse`.  Numbers keep their source
lexeme: the program never computes with them (floating point stays out of
the embedding), it only stores and re-serialises them. -/
inductive Json where
  | null
  | bool (b : Bool)
  | num (lexeme : List Char)
  | str (s : List Char)
  | arr (elems : List Json)
  | obj (fields : List (List Char × Json))

/-- JSON insignificant whitespace (RFC 8259 / `JSON.parse`). -/
def jsonWsC (c : Char) : Bool :=
  c == ' ' || c == '\t' || c == '\n' || c == '\r'

/-- Single-character JSON string escapes. -/
def unescapeChar (c : Char) : Option Char :=
  if c = '"' then some '"'
  else if c = '\\' then some '\\'
  else if c = '/' then some '/'
  else if c = 'b' then some '\x08'
  else if c = 'f' then some '\x0c'
  else if c = 'n' then some '\n'
  else if c = 'r' then some '\r'
  else if c = 't' then some '\t'
  else none

/-- Hexadecimal digit test for `\u` escapes. -/
def isHexDigitC (c : Char) : Bool :=
  c.isDigit || ('a' ≤ c && c ≤ 'f') || ('A' ≤ c && c ≤ 'F')

/-- Body of a JSON string literal after the opening quote: returns the
decoded characters and the input remaining after the closing quote.
(`\u` escapes decode to a single character; surrogate pairs are not
recombined, which no claim depends on.) -/
def parseStringBody : List Char → Option (List Char × List Char)
  | [] => none
  | c :: r =>
    if c = '"' then some ([], r)
    else if c = '\\' then
      match r with
      | [] => none
      | e :: r2 =>
        if e = 'u' then
          match r2 with
          | a :: b :: c2 :: d :: r3 =>
            if isHexDigitC a ∧ isHexDigitC b ∧ isHexDigitC c2 ∧ isHexDigitC d then
              (parseStringBody r3).map (fun p =>
                (Char.ofNat (4096 * hexDigitVal a + 256 * hexDigitVal b +
                             16 * hexDigitVal c2 + hexDigitVal d) :: p.1, p.2))
            else none
          | _ => none
        else
          match unescapeChar e with
          | none => none
          | some u => (parseStringBody r2).map (fun p => (u :: p.1, p.2))
    else if c.toNat < 32 then none
    else (parseStringBody r).map (fun p => (c :: p.1, p.2))

/-- JSON integer literal part: `0`, or a nonzero digit followed by digits. -/
def parseIntLit (s : List Char) : Option (List Char × List Char) :=
  match s with
  | [] => none
  | c :: r =>
    if c = '0' then some ([c], r)
    else if c.isDigit then
      some (c :: r.takeWhile Char.isDigit, r.dropWhile Char.isDigit)
    else none

/-- Optional JSON fraction part (`.` followed by one or more digits);
a dot with no digit is a syntax error. -/
def parseFracPart (s : List Char) : Option (List Char × List Char) :=
  match s with
  | [] => some ([], [])
  | c :: r =>
    if c = '.' then
      let ds := r.takeWhile Char.isDigit
      if ds.isEmpty then none
      else some (c :: ds, r.dropWhile Char.isDigit)
    else some ([], c :: r)

/-- Optional JSON exponent part (`e`/`E`, optional sign, one or more
digits); an exponent marker with no digit is a syntax error. -/
def parseExpPart (s : List Char) : Option (List Char × List Char) :=
  match s with
  | [] => some ([], [])
  | c :: r =>
    if c = 'e' ∨ c = 'E' then
      let sg := match r with
        | c2 :: r2 => if c2 = '+' ∨ c2 = '-' then ([c2], r2) else ([], r)
        | [] => ([], r)
      let ds := sg.2.takeWhile Char.isDigit
      if ds.isEmpty then none
      else some (c :: sg.1 ++ ds, sg.2.dropWhile Char.isDigit)
    else some ([], c :: r)

/-- A JSON number at the head of the input, returned as its lexeme. -/
def parseNumberAt (s : List Char) : Option (Json × List Char) :=
  let mp := match s with
    | c :: r => if c = '-' then (([c] : List Char), r) else ([], c :: r)
    | [] => ([], ([] : List Char))
  match parseIntLit mp.2 with
  | none => none
  | some (ip, s2) =>
    match parseFracPart s2 with
    | none => none
    | some (fp, s3) =>
      match parseExpPart s3 with
      | none => none
      | some (ep, s4) => some (Json.num (mp.1 ++ ip ++ fp ++ ep), s4)

/-- Mode of the fueled JSON parser loop: parsing a value, the items of an
array, or the members of an object. -/
inductive PMode where
  | value
  | arrItems (acc : List Json)
  | objItems (acc : List (List Char × Json))

/-- Recursive-descent core of `JSON.parse` (fuel-indexed so that all
recursion is structural and kernel-evaluable). -/
def jsonGo : Nat → PMode → List Char → Option (Json × List Char)
  | 0, _, _ => none
  | fuel + 1, PMode.value, s =>
    match s.dropWhile jsonWsC with
    | 'n' :: 'u' :: 'l' :: 'l' :: r => some (Json.null, r)
    | 't' :: 'r' :: 'u' :: 'e' :: r => some (Json.bool true, r)
    | 'f' :: 'a' :: 'l' :: 's' :: 'e' :: r => some (Json.bool false, r)
    | '"' :: r => (parseStringBody r).map (fun p => (Json.str p.1, p.2))
    | '[' :: r =>
      match r.dropWhile jsonWsC with
      | ']' :: r2 => some (Json.arr [], r2)
      | r1 => jsonGo fuel (PMode.arrItems []) r1
    | '\x7b' :: r =>
      match r.dropWhile jsonWsC with
      | '\x7d' :: r2 => some (Json.obj [], r2)
      | r1 => jsonGo fuel (PMode.objItems []) r1
    | t => parseNumberAt t
  | fuel + 1, PMode.arrItems acc, s =>
    match jsonGo fuel PMode.value s with
    | none => none
    | some (v, r) =>
      match r.dropWhile jsonWsC with
      | ',' :: r2 => jsonGo fuel (PMode.arrItems (acc ++ [v])) r2
      | ']' :: r2 => some (Json.arr (acc ++ [v]), r2)
      | _ => none
  | fuel + 1, PMode.objItems acc, s =>
    match s.dropWhile jsonWsC with
    | '"' :: r =>
      match parseStringBody r with
      | none => none
      | some (key, r1) =>
        match r1.dropWhile jsonWsC with
        | ':' :: r2 =>
          match jsonGo fuel PMode.value r2 with
          | none => none
          | some (v, r3) =>
            match r3.dropWhile jsonWsC with
            | ',' :: r4 => jsonGo fuel (PMode.objItems (acc ++ [(key, v)])) r4
            | '\x7d' :: r4 => some (Json.obj (acc ++ [(key, v)]), r4)
            | _ => none
        | _ => none
    | _ => none

/-- `JSON.parse(s)`: parse one value and require only whitespace after it;
`none` models a thrown `SyntaxError`. -/
def jsonParse (s : List Char) : Option Json :=
  match jsonGo (2 * s.length + 4) PMode.value s with
  | some (v, rest) => if (rest.dropWhile jsonWsC).isEmpty then some v else none
  | none => none

/-- The key `"id"` required of every record. -/
def idKey : List Char := ['i', 'd']

/-- `typeof v === 'object' && !Array.isArray(v) && v !== null` for a value
produced by `JSON.parse`: exactly the JSON objects. -/
def isDict : Json → Bool
  | Json.obj _ => true
  | _ => false

/-- `'id' in v` for a `JSON.parse` object value. -/
def hasIdKey : Json → Bool
  | Json.obj fields => fields.any (fun p => p.1 == idKey)
  | _ => false

/-- Property access `v[k]` on a `JSON.parse` value: with duplicate keys
the last one wins.  (On a missing key JavaScript yields `undefined`; the
program only reads `record.id` after validating the key is present.) -/
def jsonGet (v : Json) (k : List Char) : Json :=
  match v with
  | Json.obj fields =>
    match fields.reverse.find? (fun p => p.1 == k) with
    | some p => p.2
    | none => Json.null
  | _ => Json.null

/-- The error taxonomy of the per-line validation (each alternative is a
distinct `console.error` + `process.exit(2)` site in the source). -/
inductive ErrKind where
  | InvalidScore
  | InvalidRecordJSON
  | InvalidRecordShape
  | InvalidRecordMissingId
deriving DecidableEq

/-- The `{score, record}` pair built for every validated line. -/
structure ScoredRecord where
  score : Int
  record : Json

/-- `validateScoreAndRecord(scoreStr, recordStr)`: `parseInt(scoreStr, 10)`
must not be `NaN`, `JSON.parse(recordStr)` must succeed, the parsed value
must be an object that is not an array and not `null`, and it must have an
`"id"` key.  The four `process.exit(2)` sites are modelled as errors. -/
def validateScoreAndRecord (scoreStr recordStr : List Char) :
    Except ErrKind ScoredRecord :=
  match jsParseInt10 scoreStr with
  | none => Except.error ErrKind.InvalidScore
  | some score =>
    match jsonParse recordStr with
    | none => Except.error ErrKind.InvalidRecordJSON
    | some record =>
      if isDict record = false then Except.error ErrKind.InvalidRecordShape
      else if hasIdKey record = false then Except.error ErrKind.InvalidRecordMissingId
      else Except.ok ⟨score, record⟩

/-- The two tokens `parseDataFile` cuts a line into:
`line.substring(0, line.indexOf(':')).trim()` and
`line.substring(line.indexOf(':') + 1).trim()`. -/
def lineTokens (line : List Char) : List Char × List Char :=
  let colonIndex := jsIndexOf ':' line
  (trimList (jsSubstring line 0 colonIndex),
   trimList (jsSubstring line (colonIndex + 1) line.length))

/-- Validation of one line of the data file. -/
def processLine (line : List Char) : Except ErrKind ScoredRecord :=
  validateScoreAndRecord (lineTokens line).1 (lineTokens line).2

/-- Fail-fast effectful map: the first failing element aborts the run
(`validateScoreAndRecord` exits the process on its first failure, before
any later line is examined). -/
def exceptMapList {α β ε : Type} (f : α → Except ε β) : List α → Except ε (List β)
  | [] => Except.ok []
  | a :: as =>
    match f a with
    | Except.error e => Except.error e
    | Except.ok b =>
      match exceptMapList f as with
      | Except.error e => Except.error e
      | Except.ok bs => Except.ok (b :: bs)

/-- The non-empty trimmed lines of the file contents:
`data.split('\n').map(l => l.trim()).filter(l => l !== '')`. -/
def dataLines (data : List Char) : List (List Char) :=
  ((data.splitOn '\n').map trimList).filter (fun l => !l.isEmpty)

/-- Number of non-blank lines of the input. -/
def numLines (data : List Char) : Nat :=
  (dataLines data).length

/-- `parseDataFile` on the file contents (the `fs.readFile` callback is
abstracted by passing the contents directly; a read error never reaches
this logic). -/
def parseDataFile (data : List Char) : Except ErrKind (List ScoredRecord) :=
  exceptMapList processLine (dataLines data)

/-- The `{score, record: record.id}` projection of the output. -/
structure RankedEntry where
  score : Int
  record : Json

/-- Stable descending-by-score insertion used to model
`records.sort((a, b) => b.score - a.score)`.  Since ES2019
`Array.prototype.sort` is required to be stable, its output is the unique
stable reordering that is non-increasing on scores, which this computes. -/
def insertDesc (r : ScoredRecord) : List ScoredRecord → List ScoredRecord
  | [] => [r]
  | x :: xs =>
    if r.score < x.score then x :: insertDesc r xs
    else r :: x :: xs

/-- The sorted state of the records array after
`records.sort((a, b) => b.score - a.score)`. -/
def sortRecordsDesc : List ScoredRecord → List ScoredRecord
  | [] => []
  | r :: rs => insertDesc r (sortRecordsDesc rs)

/-- `getHighestRecords(records, count)`: sort descending by score, take
`records.slice(0, count)`, project to `{score, record: record.id}`. -/
def getHighestRecords (records : List ScoredRecord) (count : Int) : List RankedEntry :=
  (jsSliceTo (sortRecordsDesc records) count).map
    (fun r => ⟨r.score, jsonGet r.record idKey⟩)

/-- The state of the caller's `records` array after `getHighestRecords`
returns: `Array.prototype.sort` reorders the array in place (`slice` and
`map` allocate fresh arrays and leave their receivers alone). -/
def getHighestRecordsPost (records : List ScoredRecord) : List ScoredRecord :=
  sortRecordsDesc records

/-- The parse-validate-rank pipeline on given file contents and count. -/
def runPipeline (data : List Char) (count : Int) :
    Except ErrKind (List RankedEntry) :=
  match parseDataFile data with
  | Except.error e => Except.error e
  | Except.ok records => Except.ok (getHighestRecords records count)

/-- Outcome of a run of `main` (file I/O abstracted: the file contents are
given, so the `ENOENT` branch is out of scope). -/
inductive RunOutcome where
  | usage
  | invalidCount
  | parseErr (e : ErrKind)
  | success (out : List RankedEntry)

/-- `main` with the file read abstracted to its contents: check the
argument count, parse the count with radix-less `parseInt`, reject `NaN`
and non-positive counts, then run the pipeline. -/
def runMain (args : List (List Char)) (fileData : List Char) : RunOutcome :=
  match args with
  | [_, countArg] =>
    (match jsParseIntNoRadix countArg with
     | none => RunOutcome.invalidCount
     | some c =>
       if c ≤ 0 then RunOutcome.invalidCount
       else
         match parseDataFile fileData with
         | Except.error e => RunOutcome.parseErr e
         | Except.ok records => RunOutcome.success (getHighestRecords records c))
  | _ => RunOutcome.usage

/-- Process exit code of each outcome (`process.exit` sites of `main` and
`validateScoreAndRecord`). -/
def exitCode : RunOutcome → Nat
  | RunOutcome.usage => 1
  | RunOutcome.invalidCount => 2
  | RunOutcome.parseErr _ => 2
  | RunOutcome.success _ => 0

/-- Constructor discriminator for `RunOutcome` (used to separate outcomes
without deciding equality of the carried data). -/
def outcomeTag : RunOutcome → Nat
  | RunOutcome.usage => 0
  | RunOutcome.invalidCount => 1
  | RunOutcome.parseErr _ => 2
  | RunOutcome.success _ => 3

/-- Spec-side reading of a count argument that "denotes a positive
integer": a non-empty string of decimal digits with positive value. -/
def denotesPositiveInteger (s : List Char) : Bool :=
  !s.isEmpty && s.all Char.isDigit && decide (0 < digitsToNat s)

theorem insertDesc_perm (r : ScoredRecord) (l : List ScoredRecord) :
    (insertDesc r l).Perm (r :: l) := by
  induction l with
  | nil => exact List.Perm.refl _
  | cons x xs ih =>
    simp only [insertDesc]
    split
    · exact (ih.cons x).trans (List.Perm.swap r x xs)
    · exact List.Perm.refl _

theorem sortRecordsDesc_perm (l : List ScoredRecord) :
    (sortRecordsDesc l).Perm l := by
  induction l with
  | nil => exact List.Perm.refl _
  | cons r rs ih =>
    simp only [sortRecordsDesc]
    exact (insertDesc_perm r (sortRecordsDesc rs)).trans (ih.cons r)

theorem insertDesc_pairwise (r : ScoredRecord) (l : List ScoredRecord)
    (h : l.Pairwise (fun a b => b.score ≤ a.score)) :
    (insertDesc r l).Pairwise (fun a b => b.score ≤ a.score) := by
  induction l with
  | nil => simp [insertDesc]
  | cons x xs ih =>
    rw [List.pairwise_cons] at h
    simp only [insertDesc]
    split
    · rename_i hlt
      rw [List.pairwise_cons]
      refine ⟨fun y hy => ?_, ih h.2⟩
      rcases List.mem_cons.mp ((insertDesc_perm r xs).mem_iff.mp hy) with hy' | hy'
      · subst hy'
        omega
      · exact h.1 y hy'
    · rename_i hge
      rw [List.pairwise_cons]
      refine ⟨fun y hy => ?_, List.pairwise_cons.mpr h⟩
      rcases List.mem_cons.mp hy with hy' | hy'
      · subst hy'
        omega
      · have := h.1 y hy'
        omega

theorem sortRecordsDesc_pairwise (l : List ScoredRecord) :
    (sortRecordsDesc l).Pairwise (fun a b => b.score ≤ a.score) := by
  induction l with
  | nil => simp [sortRecordsDesc]
  | cons r rs ih =>
    exact insertDesc_pairwise r (sortRecordsDesc rs) ih

theorem getHighestRecords_pairwise (records : List ScoredRecord) (count : Int) :
    (getHighestRecords records count).Pairwise (fun a b => b.score ≤ a.score) := by
  unfold getHighestRecords
  rw [List.pairwise_map]
  have h1 : (jsSliceTo (sortRecordsDesc records) count).Pairwise
      (fun a b : ScoredRecord => b.score ≤ a.score) := by
    unfold jsSliceTo
    exact List.Pairwise.sublist (List.take_sublist _ _) (sortRecordsDesc_pairwise records)
  exact h1.imp (fun h => h)

theorem exceptMapList_ok_length {α β ε : Type} (f : α → Except ε β) :
    ∀ (l : List α) (r : List β), exceptMapList f l = Except.ok r → r.length = l.length := by
  intro l
  induction l with
  | nil =>
    intro r h
    simp only [exceptMapList] at h
    cases h
    rfl
  | cons a as ih =>
    intro r h
    simp only [exceptMapList] at h
    cases hfa : f a with
    | error e => rw [hfa] at h; cases h
    | ok b =>
      rw [hfa] at h
      cases hrest : exceptMapList f as with
      | error e => rw [hrest] at h; cases h
      | ok bs =>
        rw [hrest] at h
        cases h
        simp [ih bs hrest]

theorem digit_ne {c x : Char} (h : c.isDigit = true) (hx : x.isDigit = false) :
    ¬ c = x := by
  intro heq
  subst heq
  rw [h] at hx
  exact Bool.noConfusion hx

theorem digit_not_ws {c : Char} (h : c.isDigit = true) : isJsWs c = false := by
  cases hw : isJsWs c with
  | false => rfl
  | true =>
    exfalso
    simp only [isJsWs, Bool.or_eq_true, beq_iff_eq] at hw
    rcases hw with ((((rfl | rfl) | rfl) | rfl) | rfl) | rfl <;>
      exact absurd h (by decide)

theorem takeWhile_all_eq {p : Char → Bool} :
    ∀ (s : List Char), (∀ c ∈ s, p c = true) → s.takeWhile p = s := by
  intro s
  induction s with
  | nil => intro _; rfl
  | cons c cs ih =>
    intro h
    rw [List.takeWhile_cons, h c (List.mem_cons_self c cs)]
    exact congrArg (c :: ·) (ih (fun x hx => h x (List.mem_cons_of_mem c hx)))

theorem takeWhile_append_stop {p : Char → Bool} :
    ∀ (ds rest : List Char), (∀ c ∈ ds, p c = true) →
      (∀ c, rest.head? = some c → p c = false) →
      (ds ++ rest).takeWhile p = ds := by
  intro ds
  induction ds with
  | nil =>
    intro rest _ h2
    cases rest with
    | nil => rfl
    | cons c cs =>
      simp [List.takeWhile_cons, h2 c rfl]
  | cons d dsr ih =>
    intro rest h1 h2
    rw [List.cons_append, List.takeWhile_cons, h1 d (List.mem_cons_self d dsr)]
    exact congrArg (d :: ·)
      (ih rest (fun x hx => h1 x (List.mem_cons_of_mem d hx)) h2)

theorem jsIndexOf_of_not_mem {c : Char} :
    ∀ (l : List Char), c ∉ l → jsIndexOf c l = -1 := by
  intro l
  induction l with
  | nil => intro _; rfl
  | cons x xs ih =>
    intro h
    have hxc : ¬ x = c := fun he => h (by rw [he]; exact List.mem_cons_self c xs)
    have hxs : c ∉ xs := fun hc => h (List.mem_cons_of_mem x hc)
    simp [jsIndexOf, hxc, ih hxs]

theorem jsSubstring_full (s : List Char) : jsSubstring s 0 s.length = s := by
  simp only [jsSubstring]
  have h1 : (max (min (max (0:Int) 0) (s.length:Int)) (min (max (s.length:Int) 0) (s.length:Int))).toNat
      = s.length := by omega
  have h2 : (min (min (max (0:Int) 0) (s.length:Int)) (min (max (s.length:Int) 0) (s.length:Int))).toNat
      = 0 := by omega
  rw [h1, h2, List.take_length, List.drop_zero]

theorem jsSubstring_zero_negOne (s : List Char) : jsSubstring s 0 (-1) = [] := by
  simp only [jsSubstring]
  have h1 : (max (min (max (0:Int) 0) (s.length:Int)) (min (max (-1:Int) 0) (s.length:Int))).toNat
      = 0 := by omega
  rw [h1, List.take_zero, List.drop_nil]

theorem list_ne_nil_isEmpty_false {α : Type} {l : List α} (h : l ≠ []) :
    l.isEmpty = false := by
  cases l with
  | nil => exact absurd rfl h
  | cons a as => rfl

theorem jsParseInt10_digits_append (ds rest : List Char)
    (h1 : ds ≠ []) (h2 : ∀ c ∈ ds, c.isDigit = true)
    (h3 : ∀ c, rest.head? = some c → c.isDigit = false) :
    jsParseInt10 (ds ++ rest) = some (digitsToNat ds : Int) := by
  cases ds with
  | nil => exact absurd rfl h1
  | cons d dsr =>
    have hd : d.isDigit = true := h2 d (List.mem_cons_self d dsr)
    have hm : ¬ d = '-' := digit_ne hd (by decide)
    have hp : ¬ d = '+' := digit_ne hd (by decide)
    have hdw : ((d :: dsr) ++ rest).dropWhile isJsWs = (d :: dsr) ++ rest := by
      rw [List.cons_append, List.dropWhile_cons, digit_not_ws hd]
      simp
    have hss : splitSign ((d :: dsr) ++ rest) = (false, (d :: dsr) ++ rest) := by
      rw [List.cons_append]
      simp [splitSign, hm, hp]
    have htw : (((d :: dsr) ++ rest)).takeWhile Char.isDigit = d :: dsr :=
      takeWhile_append_stop (d :: dsr) rest h2 h3
    simp only [jsParseInt10, hdw, hss, htw]
    simp

theorem jsParseInt10_neg_digits (ds : List Char) (h1 : ds ≠ [])
    (h2 : ∀ c ∈ ds, c.isDigit = true) :
    jsParseInt10 ('-' :: ds) = some (-(digitsToNat ds : Int)) := by
  have htw : ds.takeWhile Char.isDigit = ds := takeWhile_all_eq ds h2
  have hdw : ('-' :: ds).dropWhile isJsWs = '-' :: ds := by
    rw [List.dropWhile_cons, show isJsWs '-' = false from rfl]
    simp
  have hss : splitSign ('-' :: ds) = (true, ds) := by
    simp [splitSign]
  simp only [jsParseInt10, hdw, hss, htw]
  simp [list_ne_nil_isEmpty_false h1]

theorem jsParseIntNoRadix_all_digits (s : List Char) (h1 : s ≠ [])
    (h2 : ∀ c ∈ s, c.isDigit = true) :
    jsParseIntNoRadix s = some (digitsToNat s : Int) := by
  cases s with
  | nil => exact absurd rfl h1
  | cons c cs =>
    have hc : c.isDigit = true := h2 c (List.mem_cons_self c cs)
    have hm : ¬ c = '-' := digit_ne hc (by decide)
    have hp : ¬ c = '+' := digit_ne hc (by decide)
    have hdw : (c :: cs).dropWhile isJsWs = c :: cs := by
      rw [List.dropWhile_cons, digit_not_ws hc]
      simp
    have hss : splitSign (c :: cs) = (false, c :: cs) := by
      simp [splitSign, hm, hp]
    have hsr : splitRadix (c :: cs) = (10, c :: cs) := by
      cases cs with
      | nil => rfl
      | cons c1 r =>
        have hc1 : c1.isDigit = true :=
          h2 c1 (List.mem_cons_of_mem c (List.mem_cons_self c1 r))
        have hx : ¬ c1 = 'x' := digit_ne hc1 (by decide)
        have hX : ¬ c1 = 'X' := digit_ne hc1 (by decide)
        simp only [splitRadix]
        rw [if_neg]
        rintro ⟨-, hor⟩
        rcases hor with h | h
        · exact hx h
        · exact hX h
    have hrd : isRadixDigit 10 = Char.isDigit := by
      funext x
      simp [isRadixDigit]
    have htw : (c :: cs).takeWhile Char.isDigit = c :: cs := takeWhile_all_eq _ h2
    simp only [jsParseIntNoRadix, hdw, hss, hsr, hrd, htw]
    simp [digitsToNat]

theorem jsParseIntNoRadix_of_denotes (s : List Char)
    (h : denotesPositiveInteger s = true) :
    jsParseIntNoRadix s = some (digitsToNat s : Int) ∧ (0 : Int) < (digitsToNat s : Int) := by
  simp only [denotesPositiveInteger, Bool.and_eq_true, Bool.not_eq_true',
    decide_eq_true_eq, List.all_eq_true] at h
  obtain ⟨⟨hne, hall⟩, hpos⟩ := h
  have h1 : s ≠ [] := by
    intro hnil
    rw [hnil] at hne
    exact Bool.noConfusion hne
  refine ⟨jsParseIntNoRadix_all_digits s h1 (fun c hc => hall c hc), ?_⟩
  exact_mod_cast hpos

/-- Concrete data file: `10: {"id": "a"}`, `5: {"id": "b"}`, `20: {"id": "c"}`. -/
def exData : List Char :=
  ['1','0',':',' ','\x7b','"','i','d','"',':',' ','"','a','"','\x7d','\n',
   '5',':',' ','\x7b','"','i','d','"',':',' ','"','b','"','\x7d','\n',
   '2','0',':',' ','\x7b','"','i','d','"',':',' ','"','c','"','\x7d']

/-- The records `parseDataFile` produces for `exData`. -/
def exRecs : List ScoredRecord :=
  [⟨10, Json.obj [(['i','d'], Json.str ['a'])]⟩,
   ⟨5, Json.obj [(['i','d'], Json.str ['b'])]⟩,
   ⟨20, Json.obj [(['i','d'], Json.str ['c'])]⟩]

/-- C1: for every valid input (every line parses and validates) and every
positive integer count, the scores in the Ranker's output sequence are
non-increasing from the first entry to the last. -/
theorem ranker_scores_nonincreasing (data : List Char) (count : Int)
    (records : List ScoredRecord)
    (hvalid : parseDataFile data = Except.ok records) (hcount : 0 < count)
    (i j : Fin (getHighestRecords records count).length) (hij : i ≤ j) :
    ((getHighestRecords records count).get j).score ≤
      ((getHighestRecords records count).get i).score := by
  rcases lt_or_eq_of_le hij with hlt | heq
  · exact List.pairwise_iff_get.mp (getHighestRecords_pairwise records count) i j hlt
  · rw [heq]

theorem ranker_scores_nonincreasing_witness :
    ((getHighestRecords exRecs 2).get ⟨1, by decide⟩).score ≤
      ((getHighestRecords exRecs 2).get ⟨0, by decide⟩).score :=
  ranker_scores_nonincreasing exData 2 exRecs (by rfl) (by decide)
    ⟨0, by decide⟩ ⟨1, by decide⟩ (by decide)

/-- C2: for every valid input and every positive integer count, the length
of the output sequence equals `min(count, number of valid input lines)`;
when the input has fewer records than `count` they are all returned. -/
theorem ranker_output_length (data : List Char) (count : Int)
    (records : List ScoredRecord)
    (hvalid : parseDataFile data = Except.ok records) (hcount : 0 < count) :
    (getHighestRecords records count).length = min count.toNat records.length ∧
      records.length = numLines data := by
  constructor
  · have hlen : (sortRecordsDesc records).length = records.length :=
      (sortRecordsDesc_perm records).length_eq
    simp only [getHighestRecords, jsSliceTo, List.length_map, List.length_take, hlen]
    rw [if_neg (by omega : ¬ count < 0)]
    omega
  · exact exceptMapList_ok_length processLine (dataLines data) records hvalid

theorem ranker_output_length_witness :
    (getHighestRecords exRecs 5).length = min (5:Int).toNat exRecs.length ∧
      exRecs.length = numLines exData :=
  ranker_output_length exData 5 exRecs (by rfl) (by decide)

/-- C3: for every record token, validation succeeds iff the token parses
as JSON to an object (not an array, not `null`) that has an `"id"` key
(whose value may be any JSON value, `null` included); otherwise the run
fails with exactly the matching error kind. -/
theorem record_validation_taxonomy (scoreStr recordStr : List Char) (n : Int)
    (hscore : jsParseInt10 scoreStr = some n) :
    (jsonParse recordStr = none →
        validateScoreAndRecord scoreStr recordStr = Except.error ErrKind.InvalidRecordJSON) ∧
    (∀ v, jsonParse recordStr = some v → isDict v = false →
        validateScoreAndRecord scoreStr recordStr = Except.error ErrKind.InvalidRecordShape) ∧
    (∀ v, jsonParse recordStr = some v → isDict v = true → hasIdKey v = false →
        validateScoreAndRecord scoreStr recordStr = Except.error ErrKind.InvalidRecordMissingId) ∧
    (∀ v, jsonParse recordStr = some v → isDict v = true → hasIdKey v = true →
        validateScoreAndRecord scoreStr recordStr = Except.ok ⟨n, v⟩) ∧
    ((∃ sr, validateScoreAndRecord scoreStr recordStr = Except.ok sr) ↔
      (∃ v, jsonParse recordStr = some v ∧ isDict v = true ∧ hasIdKey v = true)) := by
  have h1c : jsonParse recordStr = none →
      validateScoreAndRecord scoreStr recordStr = Except.error ErrKind.InvalidRecordJSON := by
    intro hjp
    simp [validateScoreAndRecord, hscore, hjp]
  have h2c : ∀ v, jsonParse recordStr = some v → isDict v = false →
      validateScoreAndRecord scoreStr recordStr = Except.error ErrKind.InvalidRecordShape := by
    intro v hjp hd
    simp [validateScoreAndRecord, hscore, hjp, hd]
  have h3c : ∀ v, jsonParse recordStr = some v → isDict v = true → hasIdKey v = false →
      validateScoreAndRecord scoreStr recordStr = Except.error ErrKind.InvalidRecordMissingId := by
    intro v hjp hd hk
    simp [validateScoreAndRecord, hscore, hjp, hd, hk]
  have h4c : ∀ v, jsonParse recordStr = some v → isDict v = true → hasIdKey v = true →
      validateScoreAndRecord scoreStr recordStr = Except.ok ⟨n, v⟩ := by
    intro v hjp hd hk
    simp [validateScoreAndRecord, hscore, hjp, hd, hk]
  refine ⟨h1c, h2c, h3c, h4c, ?_⟩
  constructor
  · rintro ⟨sr, hsr⟩
    cases hjp : jsonParse recordStr with
    | none =>
      rw [h1c hjp] at hsr
      exact Except.noConfusion hsr
    | some v =>
      cases hd : isDict v with
      | false =>
        rw [h2c v hjp hd] at hsr
        exact Except.noConfusion hsr
      | true =>
        cases hk : hasIdKey v with
        | false =>
          rw [h3c v hjp hd hk] at hsr
          exact Except.noConfusion hsr
        | true => exact ⟨v, rfl, hd, hk⟩
  · rintro ⟨v, hjp, hd, hk⟩
    exact ⟨⟨n, v⟩, h4c v hjp hd hk⟩

def c3Score : List Char := ['1','0']

def c3Record : List Char := ['\x7b','"','i','d','"',':','n','u','l','l','\x7d']

def c3Value : Json := Json.obj [(['i','d'], Json.null)]

theorem record_validation_taxonomy_witness :
    validateScoreAndRecord c3Score c3Record = Except.ok ⟨10, c3Value⟩ :=
  (record_validation_taxonomy c3Score c3Record 10 (by rfl)).2.2.2.1 c3Value
    (by rfl) (by rfl) (by rfl)

/-- C4: the score is obtained by base-10 leading-prefix integer parsing: a
token beginning with a digit prefix is accepted with the prefix's value
(`"42abc"` → 42), and a token with no integer prefix fails the run with
`InvalidScore`. -/
theorem score_token_leading_digits (ds rest scoreStr recordStr : List Char)
    (h1 : ds ≠ []) (h2 : ∀ c ∈ ds, c.isDigit = true)
    (h3 : ∀ c, rest.head? = some c → c.isDigit = false) :
    jsParseInt10 (ds ++ rest) = some (digitsToNat ds : Int) ∧
    validateScoreAndRecord (ds ++ rest) recordStr ≠ Except.error ErrKind.InvalidScore ∧
    (jsParseInt10 scoreStr = none →
      validateScoreAndRecord scoreStr recordStr = Except.error ErrKind.InvalidScore) := by
  have hp := jsParseInt10_digits_append ds rest h1 h2 h3
  refine ⟨hp, ?_, ?_⟩
  · simp only [validateScoreAndRecord, hp]
    cases hjp : jsonParse recordStr with
    | none => simp [hjp]
    | some v =>
      simp only [hjp]
      cases hd : isDict v with
      | false => simp [hd]
      | true =>
        cases hk : hasIdKey v with
        | false => simp [hd, hk]
        | true => simp [hd, hk]
  · intro hnone
    simp [validateScoreAndRecord, hnone]

def c4Digits : List Char := ['4','2']

def c4Rest : List Char := ['a','b','c']

def c4Record : List Char := ['\x7b','"','i','d','"',':','1','\x7d']

theorem score_token_leading_digits_witness :
    jsParseInt10 (c4Digits ++ c4Rest) = some (digitsToNat c4Digits : Int) ∧
      validateScoreAndRecord c4Rest c4Record = Except.error ErrKind.InvalidScore := by
  have h := score_token_leading_digits c4Digits c4Rest c4Rest c4Record
    (by decide) (by decide) (by decide)
  exact ⟨h.1, h.2.2 (by rfl)⟩

def c5Line : List Char := ['a', 'b', 'c']

/-- C5 counterexample: on the colon-less trimmed line `"abc"` the tokens
are NOT (whole line, whole line): `substring(0, -1)` clamps the negative
end to 0, so the score token is the empty string. -/
theorem colonless_tokens_counterexample :
    ¬ (lineTokens c5Line = (c5Line, c5Line)) := by decide

/-- C5 amended: for every trimmed line with no colon, the score token is
the EMPTY string (`substring(0, -1)` = `""`) and the record token is the
entire trimmed line (`substring(0)`); such a line therefore always fails
score validation. -/
theorem colonless_tokens_amended (line : List Char)
    (h1 : ':' ∉ line) (h2 : trimList line = line) :
    lineTokens line = ([], line) := by
  have hidx : jsIndexOf ':' line = -1 := jsIndexOf_of_not_mem line h1
  simp only [lineTokens, hidx, jsSubstring_zero_negOne]
  rw [show (-1 : Int) + 1 = 0 by norm_num, jsSubstring_full, h2]
  rfl

theorem colonless_tokens_amended_witness :
    lineTokens ['x', 'y'] = ([], ['x', 'y']) :=
  colonless_tokens_amended ['x', 'y'] (by decide) (by decide)

/-- C6 counterexample: `getHighestRecords` does NOT leave its input
sequence unchanged: `Array.prototype.sort` reorders the caller's array in
place, as seen on a list whose scores arrive unsorted. -/
theorem ranker_mutates_input_counterexample :
    ¬ (getHighestRecordsPost exRecs = exRecs) :=
  fun h => absurd (congrArg (List.map ScoredRecord.score) h) (by decide)

/-- C6 amended: after `getHighestRecords` returns, the caller's records
array holds the same elements permuted into non-increasing score order
(the in-place sort); the record objects themselves are not mutated and
the projected output is built in fresh arrays. -/
theorem ranker_post_state_sorted_perm (records : List ScoredRecord) :
    (getHighestRecordsPost records).Perm records ∧
      (getHighestRecordsPost records).Pairwise (fun a b => b.score ≤ a.score) :=
  ⟨sortRecordsDesc_perm records, sortRecordsDesc_pairwise records⟩

/-- C7 counterexample: invoked directly with `count = -1` on a three-record
input, the Ranker does NOT return the empty sequence: `slice(0, -1)` keeps
all but the last entry. -/
theorem ranker_negative_count_counterexample :
    ¬ (getHighestRecords exRecs (-1) = []) :=
  fun h => absurd (congrArg List.length h) (by decide)

/-- C7 amended: invoked directly with `count = 0` the Ranker returns the
empty sequence, but with negative `count` it follows the JavaScript
`slice` negative-end rule and returns the sorted projected sequence
without its last `|count|` entries (empty only when the input has at most
`|count|` records). -/
theorem ranker_nonpositive_count_amended (records : List ScoredRecord) (count : Int) :
    (count = 0 → getHighestRecords records count = []) ∧
    (count < 0 → (getHighestRecords records count).length
        = ((records.length : Int) + count).toNat) := by
  constructor
  · intro h0
    subst h0
    simp only [getHighestRecords, jsSliceTo]
    rw [if_neg (by omega : ¬ (0:Int) < 0)]
    have hz : (min (0:Int) ((sortRecordsDesc records).length : Int)).toNat = 0 := by omega
    rw [hz]
    simp
  · intro hneg
    have hlen : (sortRecordsDesc records).length = records.length :=
      (sortRecordsDesc_perm records).length_eq
    simp only [getHighestRecords, jsSliceTo, List.length_map, List.length_take, hlen]
    rw [if_pos hneg]
    omega

theorem ranker_nonpositive_count_amended_witness :
    getHighestRecords exRecs 0 = [] ∧
      (getHighestRecords exRecs (-1)).length = ((exRecs.length : Int) + (-1)).toNat :=
  ⟨(ranker_nonpositive_count_amended exRecs 0).1 rfl,
   (ranker_nonpositive_count_amended exRecs (-1)).2 (by decide)⟩

def c8Path : List Char := ['f']

def c8Arg : List Char := ['3', 'a', 'b', 'c']

/-- C8 counterexample: the count argument `"3abc"` does not denote a
positive integer, yet the boundary layer does NOT reject the run:
`parseInt` accepts the prefix `3` and the pipeline proceeds. -/
theorem count_gate_counterexample :
    denotesPositiveInteger c8Arg = false ∧
      ¬ (runMain [c8Path, c8Arg] exData = RunOutcome.invalidCount) :=
  ⟨by decide, fun h => absurd (congrArg outcomeTag h) (by decide)⟩

/-- C8 amended: the boundary layer rejects the run with `InvalidCount`
(exit code 2) exactly when the radix-less `parseInt` of the count argument
is `NaN` or non-positive; every argument denoting a positive integer
proceeds, but so do strings with trailing garbage after a positive digit
prefix. -/
theorem count_gate_amended (filePath countArg data : List Char) :
    (runMain [filePath, countArg] data = RunOutcome.invalidCount ↔
      jsParseIntNoRadix countArg = none ∨
        ∃ n, jsParseIntNoRadix countArg = some n ∧ n ≤ 0) ∧
    exitCode RunOutcome.invalidCount = 2 ∧
    (denotesPositiveInteger countArg = true →
      ¬ runMain [filePath, countArg] data = RunOutcome.usage ∧
      ¬ runMain [filePath, countArg] data = RunOutcome.invalidCount) := by
  refine ⟨?_, rfl, ?_⟩
  · cases hp : jsParseIntNoRadix countArg with
    | none => simp [runMain, hp]
    | some n =>
      by_cases hn : n ≤ 0
      · simp [runMain, hp, hn]
      · simp only [runMain, hp]
        rw [if_neg hn]
        cases hpd : parseDataFile data with
        | error e => simp [hn]
        | ok records => simp [hn]
  · intro hd
    obtain ⟨hp, hpos⟩ := jsParseIntNoRadix_of_denotes countArg hd
    have hn : ¬ ((digitsToNat countArg : Int) ≤ 0) := by omega
    cases hpd : parseDataFile data with
    | error e =>
      constructor <;> simp [runMain, hp, hn, hpd]
    | ok records =>
      constructor <;> simp [runMain, hp, hn, hpd]

def c8Good : List Char := ['7']

theorem count_gate_amended_witness :
    ¬ runMain [c8Path, c8Good] exData = RunOutcome.usage ∧
      ¬ runMain [c8Path, c8Good] exData = RunOutcome.invalidCount :=
  (count_gate_amended c8Path c8Good exData).2.2 (by decide)

/-- C9: the pipeline is deterministic: two runs on the same input text and
the same count produce identical results (the embedding reflects the
ES2019-mandated stable sort, under which the program is a pure function of
its input). -/
theorem pipeline_deterministic (data1 data2 : List Char) (count1 count2 : Int)
    (hdata : data1 = data2) (hcount : count1 = count2) :
    runPipeline data1 count1 = runPipeline data2 count2 := by
  rw [hdata, hcount]

theorem pipeline_deterministic_witness :
    runPipeline exData 2 = runPipeline exData 2 :=
  pipeline_deterministic exData exData 2 2 rfl rfl

/-- C10: negative scores are accepted: a score token of a minus sign
followed by digits parses to the corresponding negative integer (and does
not fail with `InvalidScore`), and in the Ranker's output any entry whose
score is strictly below another's appears strictly after it. -/
theorem negative_scores_accepted (ds recordStr : List Char)
    (records : List ScoredRecord) (count : Int)
    (h1 : ds ≠ []) (h2 : ∀ c ∈ ds, c.isDigit = true)
    (i j : Fin (getHighestRecords records count).length)
    (hlt : ((getHighestRecords records count).get i).score <
           ((getHighestRecords records count).get j).score) :
    jsParseInt10 ('-' :: ds) = some (-(digitsToNat ds : Int)) ∧
    validateScoreAndRecord ('-' :: ds) recordStr ≠ Except.error ErrKind.InvalidScore ∧
    j < i := by
  have hp := jsParseInt10_neg_digits ds h1 h2
  refine ⟨hp, ?_, ?_⟩
  · simp only [validateScoreAndRecord, hp]
    cases hjp : jsonParse recordStr with
    | none => simp [hjp]
    | some v =>
      simp only [hjp]
      cases hd : isDict v with
      | false => simp [hd]
      | true =>
        cases hk : hasIdKey v with
        | false => simp [hd, hk]
        | true => simp [hd, hk]
  · by_contra hji
    push_neg at hji
    rcases lt_or_eq_of_le hji with hij | heq
    · have hge := List.pairwise_iff_get.mp (getHighestRecords_pairwise records count) i j hij
      omega
    · rw [heq] at hlt
      omega

def c10Record : List Char := ['\x7b','"','i','d','"',':','2','\x7d']

theorem negative_scores_accepted_witness :
    jsParseInt10 ['-', '5'] = some (-(digitsToNat ['5'] : Int)) ∧
    validateScoreAndRecord ['-', '5'] c10Record ≠ Except.error ErrKind.InvalidScore ∧
    (⟨0, by decide⟩ : Fin (getHighestRecords exRecs 2).length) < ⟨1, by decide⟩ :=
  negative_scores_accepted ['5'] c10Record exRecs 2 (by decide) (by decide)
    ⟨1, by decide⟩ ⟨0, by decide⟩ (by decide)
